import Mathlib

/-!
Shallow embedding of the ConfigMate repository (github.com/Jcabza008/configmate)
for verification of its natural-language specification.

The repository contains two revisions of the specification-language parser:
`src/analyzer/spec/spec_parser.go` (older: pushes an empty root path onto the
item-field stack, stores the raw type expression) and `src/unnamed/part_000`
(newer: empty initial stack, condenses list type expressions, strips quotes
from defaults).  Both are embedded below; definitions suffixed `Old` come from
`spec_parser.go`, unsuffixed ones from `part_000`.
-/

namespace ConfigMate

/-- parsers.CharLocation: a line/column pair (Go zero value: both 0). -/
structure CharLocation where
  Line : Int := 0
  Column : Int := 0
deriving DecidableEq, Repr

/-- parsers.TokenLocation: a start/end CharLocation pair. -/
structure TokenLocation where
  Start : CharLocation := {}
  End : CharLocation := {}
deriving DecidableEq, Repr

/-- spec.CheckWithLocation: a raw check-expression text with its source span. -/
structure CheckWithLocation where
  Check : String
  Location : TokenLocation
deriving DecidableEq, Repr

/-- spec.FieldSpec: one field's compiled specification.  Unset fields carry the
Go zero values (empty string / false / zero locations / nil slice). -/
structure FieldSpec where
  Field : String
  FieldLocation : TokenLocation := {}
  FieldType : String := ""
  FieldTypeLocation : TokenLocation := {}
  Optional : Bool := false
  OptionalLocation : TokenLocation := {}
  Default : String := ""
  DefaultLocation : TokenLocation := {}
  Notes : String := ""
  NotesLocation : TokenLocation := {}
  Checks : List CheckWithLocation := []
deriving DecidableEq, Repr

/-- Whitespace as matched by Go's regexp `\s` ([ \t\n\f\r\v]). -/
def goIsSpace (c : Char) : Bool :=
  c = ' ' || c = '\t' || c = '\n' || c = '\r' || c = Char.ofNat 11 || c = Char.ofNat 12

/-- Replace every maximal run of whitespace by a single space, as
`regexp.MustCompile(s+).ReplaceAllString(str, " ")` does; `inRun` records
whether the previous character belonged to a whitespace run. -/
def collapseSpacesAux (inRun : Bool) : List Char → List Char
  | [] => []
  | c :: rest =>
    if goIsSpace c then
      if inRun then collapseSpacesAux true rest
      else ' ' :: collapseSpacesAux true rest
    else c :: collapseSpacesAux false rest

/-- Replace every maximal run of whitespace by a single space. -/
def collapseSpaces (cs : List Char) : List Char :=
  collapseSpacesAux false cs

/-- Drop the last `n` characters (Go slice `str[:len(str)-n]`). -/
def dropRightChars (n : Nat) (cs : List Char) : List Char :=
  cs.take (cs.length - n)

/-- Trim leading and trailing whitespace (`strings.TrimSpace`, restricted to the
ASCII whitespace the claims exercise). -/
def trimSpaces (cs : List Char) : List Char :=
  ((cs.dropWhile goIsSpace).reverse.dropWhile goIsSpace).reverse

/-- src/unnamed/part_000 `removeStrQuotesAndCleanSpaces`: strip one layer of
triple or single double-quotes, collapse whitespace runs, trim. -/
def removeStrQuotesAndCleanSpaces (str : String) : String :=
  let cs := str.data
  let cs :=
    if cs.take 3 = ['"', '"', '"'] then dropRightChars 3 (cs.drop 3)
    else if cs.take 1 = ['"'] then dropRightChars 1 (cs.drop 1)
    else cs
  String.mk (trimSpaces (collapseSpaces cs))

/-- src/analyzer/spec/spec_parser.go `removeStrQuotesAndCleanSpaces` (older
revision): triple-quoted strings are unquoted and space-collapsed; anything
else only loses its first and last character. -/
def removeStrQuotesAndCleanSpacesOld (str : String) : String :=
  let cs := str.data
  if cs.take 3 = ['"', '"', '"'] then
    String.mk (collapseSpaces (dropRightChars 3 (cs.drop 3)))
  else
    String.mk (dropRightChars 1 (cs.drop 1))

/-- Loop body of src/unnamed/part_000 `condenseListExpressions`, written as a
recursion: each `list<...>` wrapper contributes a `list:` to the result. -/
def condenseAux (cs : List Char) : List Char :=
  if h : cs.take 5 = ['l', 'i', 's', 't', '<'] ∧ cs.getLast? = some '>' then
    'l' :: 'i' :: 's' :: 't' :: ':' :: condenseAux ((cs.drop 5).dropLast)
  else cs
termination_by cs.length
decreasing_by
  have h5 : cs.length ≥ 5 := by
    have hlen := congrArg List.length h.1
    simp [List.length_take] at hlen
    omega
  simp [List.length_dropLast, List.length_drop]
  omega

/-- src/unnamed/part_000 `condenseListExpressions`. -/
def condenseListExpressions (typeStr : String) : String :=
  String.mk (condenseAux typeStr.data)

/-- One metadata item inside a specification item, as produced by the CMSL
grammar.  The grammar guarantees the optional literal is a BOOL token, so it is
carried as a Bool (the strconv.ParseBool failure branch in the source is the
unreachable invariant-violation panic). -/
inductive MetadataItem where
  | typeMeta (typeExpr : String) (loc : TokenLocation)
  | optionalMeta (b : Bool) (loc : TokenLocation)
  | defaultMeta (primitive : String) (loc : TokenLocation)
  | notesMeta (stringExpr : String) (loc : TokenLocation)
deriving DecidableEq, Repr

/-- State of the metadata loop in `EnterSpecificationItem`: the field spec
under construction, the four duplicate flags, and the accumulated errors
(`p.errs`, a multierr modelled as a list of messages). -/
structure MetaState where
  fs : FieldSpec
  foundType : Bool := false
  foundDefault : Bool := false
  foundOptional : Bool := false
  foundNotes : Bool := false
  errs : List String := []
deriving DecidableEq, Repr

/-- Metadata-loop body of src/unnamed/part_000 `EnterSpecificationItem`
(lines 167-258).  Note: the source checks `foundNotes` but never sets it. -/
def processMetadataItem (fieldName : String) (st : MetaState) : MetadataItem → MetaState
  | MetadataItem.typeMeta typeExpr loc =>
    if st.foundType then
      { st with errs := st.errs ++ ["duplicate type metadata for field " ++ fieldName] }
    else
      { st with foundType := true,
                fs := { st.fs with FieldType := condenseListExpressions typeExpr,
                                   FieldTypeLocation := loc } }
  | MetadataItem.optionalMeta b loc =>
    if st.foundOptional then
      { st with errs := st.errs ++ ["duplicate optional metadata for field " ++ fieldName] }
    else
      { st with foundOptional := true,
                fs := { st.fs with Optional := b, OptionalLocation := loc } }
  | MetadataItem.defaultMeta primitive loc =>
    if st.foundDefault then
      { st with errs := st.errs ++ ["duplicate default metadata for field " ++ fieldName] }
    else
      { st with foundDefault := true,
                fs := { st.fs with Default := removeStrQuotesAndCleanSpaces primitive,
                                   DefaultLocation := loc } }
  | MetadataItem.notesMeta stringExpr loc =>
    if st.foundNotes then
      { st with errs := st.errs ++ ["duplicate notes metadata for field " ++ fieldName] }
    else
      { st with fs := { st.fs with Notes := removeStrQuotesAndCleanSpaces stringExpr,
                                   NotesLocation := loc } }

/-- Metadata-loop body of src/analyzer/spec/spec_parser.go
`EnterSpecificationItem` (lines 175-265, older revision): the type expression
and the default literal are stored verbatim; notes use the older string
cleaner.  The `foundNotes` flag is likewise never set. -/
def processMetadataItemOld (fieldName : String) (st : MetaState) : MetadataItem → MetaState
  | MetadataItem.typeMeta typeExpr loc =>
    if st.foundType then
      { st with errs := st.errs ++ ["duplicate type metadata for field " ++ fieldName] }
    else
      { st with foundType := true,
                fs := { st.fs with FieldType := typeExpr, FieldTypeLocation := loc } }
  | MetadataItem.optionalMeta b loc =>
    if st.foundOptional then
      { st with errs := st.errs ++ ["duplicate optional metadata for field " ++ fieldName] }
    else
      { st with foundOptional := true,
                fs := { st.fs with Optional := b, OptionalLocation := loc } }
  | MetadataItem.defaultMeta primitive loc =>
    if st.foundDefault then
      { st with errs := st.errs ++ ["duplicate default metadata for field " ++ fieldName] }
    else
      { st with foundDefault := true,
                fs := { st.fs with Default := primitive, DefaultLocation := loc } }
  | MetadataItem.notesMeta stringExpr loc =>
    if st.foundNotes then
      { st with errs := st.errs ++ ["duplicate notes metadata for field " ++ fieldName] }
    else
      { st with fs := { st.fs with Notes := removeStrQuotesAndCleanSpacesOld stringExpr,
                                   NotesLocation := loc } }

/-- The field specification as first built in `EnterSpecificationItem` before
the metadata loop runs. -/
def initialFieldSpec (fieldName : String) (nameLoc : TokenLocation) : FieldSpec :=
  { Field := fieldName, FieldLocation := nameLoc, Checks := [] }

/-- Run the metadata loop. -/
def processMetadata (fieldName : String) (fs0 : FieldSpec) (items : List MetadataItem) :
    MetaState :=
  items.foldl (processMetadataItem fieldName) { fs := fs0 }

/-- Metadata loop followed by the missing-type check of
src/unnamed/part_000 lines 260-262: returns the updated field spec and the
errors appended during this item. -/
def enterMetadata (fieldName : String) (fs0 : FieldSpec) (items : List MetadataItem) :
    FieldSpec × List String :=
  let st := processMetadata fieldName fs0 items
  (st.fs,
   if st.foundType then st.errs
   else st.errs ++ ["missing type metadata for field " ++ fieldName])

/-- Older-revision metadata loop followed by its missing-type check. -/
def enterMetadataOld (fieldName : String) (fs0 : FieldSpec) (items : List MetadataItem) :
    FieldSpec × List String :=
  let st := items.foldl (processMetadataItemOld fieldName) { fs := fs0 }
  (st.fs,
   if st.foundType then st.errs
   else st.errs ++ ["missing type metadata for field " ++ fieldName])

/-- A specification item of the CMSL parse tree: a field name with its span,
its metadata items, its check statements (raw text with span), and the nested
specification items. -/
inductive SpecItem where
  | node (fieldName : String) (nameLoc : TokenLocation)
      (metadata : List MetadataItem) (checks : List (String × TokenLocation))
      (children : List SpecItem)
deriving Repr

mutual
/-- Walk of one specification item with the item-field stack, following
src/unnamed/part_000 `EnterSpecificationItem`/`ExitSpecificationItem`: the path
is the stack top joined to the local name by "." (just the local name when the
stack is empty), the item's field spec is appended before its children are
walked, and the path is pushed for the children and popped afterwards.
Returns the appended field specs and accumulated errors in walk order. -/
def walkItem (stack : List String) : SpecItem → List FieldSpec × List String
  | SpecItem.node name nameLoc metadata checks children =>
    let fieldName :=
      match stack with
      | [] => name
      | parentField :: _ => parentField ++ "." ++ name
    let fsErrs := enterMetadata fieldName (initialFieldSpec fieldName nameLoc) metadata
    let fs := { fsErrs.1 with
                Checks := checks.map (fun c => { Check := c.1, Location := c.2 }) }
    let child := walkItems (fieldName :: stack) children
    (fs :: child.1, fsErrs.2 ++ child.2)

/-- Walk of a list of sibling specification items. -/
def walkItems (stack : List String) : List SpecItem → List FieldSpec × List String
  | [] => ([], [])
  | item :: rest =>
    let first := walkItem stack item
    let sibling := walkItems stack rest
    (first.1 ++ sibling.1, first.2 ++ sibling.2)
end

mutual
/-- Walk of one specification item in the older revision
(src/analyzer/spec/spec_parser.go lines 146-296): `Parse` pushes an empty root
path first and `EnterSpecificationItem` unconditionally joins the stack top
with the local name. -/
def walkItemOld (stack : List String) : SpecItem → List FieldSpec × List String
  | SpecItem.node name nameLoc metadata checks children =>
    let fieldName := stack.headD "" ++ "." ++ name
    let fsErrs := enterMetadataOld fieldName (initialFieldSpec fieldName nameLoc) metadata
    let fs := { fsErrs.1 with
                Checks := checks.map (fun c => { Check := c.1, Location := c.2 }) }
    let child := walkItemsOld (fieldName :: stack) children
    (fs :: child.1, fsErrs.2 ++ child.2)

/-- Walk of a list of sibling specification items, older revision. -/
def walkItemsOld (stack : List String) : List SpecItem → List FieldSpec × List String
  | [] => ([], [])
  | item :: rest =>
    let first := walkItemOld stack item
    let sibling := walkItemsOld stack rest
    (first.1 ++ sibling.1, first.2 ++ sibling.2)
end

mutual
/-- Follows the spec's words: "the dotted path of a nested field equals its
parent's path joined with its local name by a single separator, with no
separator artifact when the parent is the root".  `none` is the root parent. -/
def specItemPaths (parent : Option String) : SpecItem → List String
  | SpecItem.node name _ _ _ children =>
    let path :=
      match parent with
      | none => name
      | some p => p ++ "." ++ name
    path :: specItemsPaths (some path) children

/-- Dotted paths of a list of sibling items under the given parent path. -/
def specItemsPaths (parent : Option String) : List SpecItem → List String
  | [] => []
  | item :: rest => specItemPaths parent item ++ specItemsPaths parent rest
end

/-- spec.Specification: root of the compiled model.  The Go maps for imports
are modelled as association lists in insertion order. -/
structure Specification where
  File : String := ""
  FileLocation : TokenLocation := {}
  FileFormat : String := ""
  FileFormatLocation : TokenLocation := {}
  Imports : List (String × String) := []
  ImportsLocation : List (String × TokenLocation) := []
  Fields : List FieldSpec := []
deriving Repr

/-- One import item of the parse tree: identifier, raw SHORT_STRING text, span. -/
structure ImportItem where
  identifier : String
  shortString : String
  loc : TokenLocation
deriving Repr

/-- The CMSL parse tree after a syntactically successful parse: the file
declaration (raw SHORT_STRING and format identifier with spans), the import
items and the specification items, in document order. -/
structure CmslTree where
  file : String
  fileLoc : TokenLocation := {}
  fileFormat : String := ""
  fileFormatLoc : TokenLocation := {}
  importItems : List ImportItem := []
  items : List SpecItem := []

/-- The semantic walk of src/unnamed/part_000 `Parse` (EnterFileDeclaration,
EnterImportItem, EnterSpecificationItem), returning the built Specification
and the accumulated `p.errs`. -/
def walkTree (tree : CmslTree) : Specification × List String :=
  let fieldsErrs := walkItems [] tree.items
  ({ File := removeStrQuotesAndCleanSpaces tree.file
     FileLocation := tree.fileLoc
     FileFormat := tree.fileFormat
     FileFormatLocation := tree.fileFormatLoc
     Imports := tree.importItems.map
       (fun i => (i.identifier, removeStrQuotesAndCleanSpaces i.shortString))
     ImportsLocation := tree.importItems.map (fun i => (i.identifier, i.loc))
     Fields := fieldsErrs.1 },
   fieldsErrs.2)

/-- src/unnamed/part_000 `specParserImpl.Parse` (lines 42-87), after lexing:
`syntaxErrors` are the lexer/parser error-listener errors.  If any exist Parse
returns no Specification and a combined syntax error; otherwise it walks the
tree and returns the Specification together with a `nil` error — the
accumulated semantic errors of the walk are dropped (`return &p.spec, nil`). -/
def Parse (syntaxErrors : List String) (tree : CmslTree) :
    Option Specification × Option String :=
  if syntaxErrors.length > 0 then
    (none, some ("syntax errors: " ++ String.intercalate "; " syntaxErrors))
  else
    (some (walkTree tree).1, none)

/-- parsers.FieldType (src/parsers/configfile.go lines 3-14). -/
inductive FieldType where
  | Null
  | Bool
  | Int
  | Float
  | String
  | Array
  | Object
deriving DecidableEq, Repr

mutual
/-- parsers.Node (as used by src/parsers/toml_parser.go): a tagged value with
independent name and value locations. -/
inductive Node where
  | mk (type : FieldType) (value : GoValue) (nameLocation : TokenLocation)
      (valueLocation : TokenLocation)

/-- The dynamic payload (`Value interface\x7b\x7d`) of a Node: nil, a scalar, a
`[]*Node` or a `map[string]*Node` (modelled as an association list in
insertion order).  Floats are carried as their source text, since no claim
computes with them. -/
inductive GoValue where
  | nil
  | boolV (b : Bool)
  | intV (n : Int)
  | floatV (text : String)
  | strV (s : String)
  | arrV (elems : List Node)
  | objV (entries : List (String × Node))
end

def Node.type : Node → FieldType
  | .mk t _ _ _ => t

def Node.value : Node → GoValue
  | .mk _ v _ _ => v

def Node.nameLocation : Node → TokenLocation
  | .mk _ _ nl _ => nl

def Node.valueLocation : Node → TokenLocation
  | .mk _ _ _ vl => vl

def Node.withNameLocation : Node → TokenLocation → Node
  | .mk t v _ vl, nl => .mk t v nl vl

def Node.withValueLocation : Node → TokenLocation → Node
  | .mk t v nl _, vl => .mk t v nl vl

def Node.withTypeValue : Node → FieldType → GoValue → Node
  | .mk _ _ nl vl, t, v => .mk t v nl vl

/-- The node-local effect of src/parsers/toml_parser.go `EnterStandard_table`
(lines 186-207) on the node returned by `getOrCreateNode`: set the name
location from the table-header context, fall the value location back to the
name location (no distinct value token exists), and initialize the node as an
empty object when it is new.  Stack and error bookkeeping are outside this
node-local function. -/
def enterStandardTableUpdate (ctxLoc : TokenLocation) (fieldNode : Node) : Node :=
  let n1 := fieldNode.withNameLocation ctxLoc
  let n2 := n1.withValueLocation n1.nameLocation
  if n2.type = FieldType.Null then n2.withTypeValue FieldType.Object (GoValue.objV [])
  else n2

/-- The table node created for one array-of-tables entry by
src/parsers/toml_parser.go `EnterArray_table` (lines 262-280): a fresh object
node whose name location is the header context span and whose value location
falls back to the name location. -/
def newInArrayTableNode (ctxLoc : TokenLocation) : Node :=
  let n := Node.mk FieldType.Object (GoValue.objV []) ctxLoc {}
  n.withValueLocation n.nameLocation

/-- analyzer/types IType: the polymorphic typed-value wrapper.  The variants
referenced by the sources under src/ (tString via the get-method cast,
tCustomObject) plus the primitive and list variants the specification
describes; the custom-object field map is an association list in insertion
order. -/
inductive IType where
  | tBool (value : Bool)
  | tInt (value : Int)
  | tFloat (text : String)
  | tString (value : String)
  | tList (elems : List IType)
  | tCustomObject (objectName : String) (fields : List (String × IType))
deriving Repr

/-- analyzer/types Method: the callable signature of a typed value's method. -/
def Method := List IType → Except String IType

mutual
/-- Modelled from the spec: `MakeType(typeDescriptor, value)` of the type/value
system, whose defining file is not under src/ (only its caller
`customObjectFactory` is).  Per the spec, primitive descriptors wrap scalar
nodes directly and mismatches are errors; a `list:` prefix wraps each array
element recursively.  Named object descriptors are resolved through an
external definitions registry and are not modelled: they yield an error here. -/
def MakeType (typeDescriptor : String) (value : GoValue) : Except String IType :=
  if typeDescriptor = "bool" then
    match value with
    | GoValue.boolV b => Except.ok (IType.tBool b)
    | _ => Except.error ("type mismatch: expected " ++ typeDescriptor)
  else if typeDescriptor = "int" then
    match value with
    | GoValue.intV n => Except.ok (IType.tInt n)
    | _ => Except.error ("type mismatch: expected " ++ typeDescriptor)
  else if typeDescriptor = "float" then
    match value with
    | GoValue.floatV t => Except.ok (IType.tFloat t)
    | _ => Except.error ("type mismatch: expected " ++ typeDescriptor)
  else if typeDescriptor = "string" then
    match value with
    | GoValue.strV s => Except.ok (IType.tString s)
    | _ => Except.error ("type mismatch: expected " ++ typeDescriptor)
  else if typeDescriptor.startsWith "list:" then
    match value with
    | GoValue.arrV elems => (makeTypeElems (typeDescriptor.drop 5) elems).map IType.tList
    | _ => Except.error ("type mismatch: expected " ++ typeDescriptor)
  else Except.error ("unknown type " ++ typeDescriptor)

/-- Modelled from the spec: elementwise conversion of an array node's
children, each against the element type descriptor; the first mismatch is the
result. -/
def makeTypeElems (typeDescriptor : String) : List Node → Except String (List IType)
  | [] => Except.ok []
  | Node.mk _ v _ _ :: rest =>
    match MakeType typeDescriptor v with
    | Except.error e => Except.error e
    | Except.ok t => (makeTypeElems typeDescriptor rest).map (fun ts => t :: ts)
end

/-- Modelled from the spec: one declared property of a named object type
(spec.ObjectDef's property list; the defining file is not under src/): a name,
a type descriptor and an optional/required flag.  (`Type` in Go; renamed
because `Type` is reserved in Lean.) -/
structure ObjectProperty where
  Name : String
  type : String
  Optional : Bool
deriving Repr

/-- Modelled from the spec: spec.ObjectDef, a named object type with its
ordered declared property list. -/
structure ObjectDef where
  Name : String
  Properties : List ObjectProperty
deriving Repr

/-- The property loop of src/analyzer/types/tcustom_object.go
`customObjectFactory` (lines 22-32), building the field map: each declared
property present in the source map is converted with MakeType (a conversion
error aborts construction); a missing non-optional property is a
missing-required-property error; a missing optional property is skipped. -/
def customObjectFields (objValue : List (String × Node)) :
    List ObjectProperty → Except String (List (String × IType))
  | [] => Except.ok []
  | prop :: rest =>
    match objValue.lookup prop.Name with
    | some propNode =>
      match MakeType prop.type propNode.value with
      | Except.error e => Except.error e
      | Except.ok t =>
        (customObjectFields objValue rest).map (fun fs => (prop.Name, t) :: fs)
    | none =>
      if !prop.Optional then
        Except.error ("missing required property " ++ prop.Name)
      else
        customObjectFields objValue rest

/-- src/analyzer/types/tcustom_object.go `customObjectFactory` (lines 15-35). -/
def customObjectFactory (objValue : List (String × Node)) (definition : ObjectDef) :
    Except String IType :=
  (customObjectFields objValue definition.Properties).map
    (fun fs => IType.tCustomObject definition.Name fs)

/-- The `get` closure of src/analyzer/types/tcustom_object.go `GetMethod`
(lines 61-79): exactly one argument, which must be a tString naming an
existing field; returns the stored typed value. -/
def tCustomObjectGet (objectName : String) (fields : List (String × IType)) : Method :=
  fun args =>
    if args.length ≠ 1 then
      Except.error (objectName ++ ".get expects 1 argument")
    else
      match args with
      | IType.tString field :: _ =>
        match fields.lookup field with
        | none => Except.error (objectName ++ " does not have field " ++ field)
        | some v => Except.ok v
      | _ => Except.error ("argument to " ++ objectName ++ ".get must be a string")

/-- src/analyzer/types/tcustom_object.go `tCustomObject.GetMethod`
(lines 59-90): look the method up in the method table; when absent, return the
sentinel callable that always fails naming the type and the method. -/
def GetMethod (objectName : String) (fields : List (String × IType)) (method : String) :
    Method :=
  let tCustomObjectMethods : List (String × Method) :=
    [("get", tCustomObjectGet objectName fields)]
  match tCustomObjectMethods.lookup method with
  | none => fun _ => Except.error (objectName ++ " does not have method " ++ method)
  | some m => m

/-! ### Helper lemmas -/

/-- The metadata loop never changes the field path stored in the field spec. -/
theorem processMetadataItem_Field (fieldName : String) (st : MetaState) (item : MetadataItem) :
    (processMetadataItem fieldName st item).fs.Field = st.fs.Field := by
  cases item <;> simp only [processMetadataItem] <;> split <;> rfl

theorem foldl_processMetadataItem_Field (fieldName : String) (items : List MetadataItem) :
    ∀ st : MetaState,
      ((items.foldl (processMetadataItem fieldName) st).fs).Field = st.fs.Field := by
  induction items with
  | nil => intro st; rfl
  | cons i rest ih =>
    intro st
    rw [List.foldl_cons, ih, processMetadataItem_Field]

theorem enterMetadata_Field (fieldName : String) (fs0 : FieldSpec) (items : List MetadataItem) :
    (enterMetadata fieldName fs0 items).1.Field = fs0.Field :=
  foldl_processMetadataItem_Field fieldName items { fs := fs0 }

/-- The older-revision metadata loop never changes the stored field path. -/
theorem processMetadataItemOld_Field (fieldName : String) (st : MetaState)
    (item : MetadataItem) :
    (processMetadataItemOld fieldName st item).fs.Field = st.fs.Field := by
  cases item <;> simp only [processMetadataItemOld] <;> split <;> rfl

theorem foldl_processMetadataItemOld_Field (fieldName : String) (items : List MetadataItem) :
    ∀ st : MetaState,
      ((items.foldl (processMetadataItemOld fieldName) st).fs).Field = st.fs.Field := by
  induction items with
  | nil => intro st; rfl
  | cons i rest ih =>
    intro st
    rw [List.foldl_cons, ih, processMetadataItemOld_Field]

theorem enterMetadataOld_Field (fieldName : String) (fs0 : FieldSpec)
    (items : List MetadataItem) :
    (enterMetadataOld fieldName fs0 items).1.Field = fs0.Field :=
  foldl_processMetadataItemOld_Field fieldName items { fs := fs0 }

mutual
/-- The field paths stored by the part_000 walk of one item match the
spec-side dotted-path computation, with the stack top as parent. -/
theorem walkItem_paths (stack : List String) (item : SpecItem) :
    (walkItem stack item).1.map (fun f => f.Field) = specItemPaths stack.head? item := by
  cases item with
  | node name nameLoc metadata checks children =>
    cases stack with
    | nil =>
      simp only [walkItem, specItemPaths, List.head?, List.map_cons, List.cons.injEq]
      exact ⟨enterMetadata_Field _ _ _, walkItems_paths [name] children⟩
    | cons parentField rest =>
      simp only [walkItem, specItemPaths, List.head?, List.map_cons, List.cons.injEq]
      exact ⟨enterMetadata_Field _ _ _,
        walkItems_paths ((parentField ++ "." ++ name) :: parentField :: rest) children⟩

/-- The field paths stored by the part_000 walk of a list of items. -/
theorem walkItems_paths (stack : List String) (items : List SpecItem) :
    (walkItems stack items).1.map (fun f => f.Field) = specItemsPaths stack.head? items := by
  cases items with
  | nil => rfl
  | cons item rest =>
    simp only [walkItems, specItemsPaths, List.map_append]
    rw [walkItem_paths stack item, walkItems_paths stack rest]
end

mutual
/-- The field paths stored by the older-revision walk of one item: the parent
is the stack top, an empty stack standing for the empty-string root. -/
theorem walkItemOld_paths (stack : List String) (item : SpecItem) :
    (walkItemOld stack item).1.map (fun f => f.Field)
      = specItemPaths (some (stack.headD "")) item := by
  cases item with
  | node name nameLoc metadata checks children =>
    simp only [walkItemOld, specItemPaths, List.map_cons, List.cons.injEq]
    exact ⟨enterMetadataOld_Field _ _ _,
      walkItemsOld_paths ((stack.headD "" ++ "." ++ name) :: stack) children⟩

/-- The field paths stored by the older-revision walk of a list of items. -/
theorem walkItemsOld_paths (stack : List String) (items : List SpecItem) :
    (walkItemsOld stack items).1.map (fun f => f.Field)
      = specItemsPaths (some (stack.headD "")) items := by
  cases items with
  | nil => rfl
  | cons item rest =>
    simp only [walkItemsOld, specItemsPaths, List.map_append]
    rw [walkItemOld_paths stack item, walkItemsOld_paths stack rest]
end

/-- Once the condense loop has finished, its output never satisfies the loop
condition again: either it starts with "list:" or it is the unchanged input on
which the condition already failed. -/
theorem condenseAux_fixed (cs : List Char) :
    ¬((condenseAux cs).take 5 = ['l', 'i', 's', 't', '<']
      ∧ (condenseAux cs).getLast? = some '>') := by
  rw [condenseAux]
  split
  · simp
  · next hcond => exact hcond

theorem condenseAux_idem (cs : List Char) :
    condenseAux (condenseAux cs) = condenseAux cs := by
  conv_lhs => rw [condenseAux]
  rw [dif_neg (condenseAux_fixed cs)]

/-! ### Claims -/

/-- Claim C1 (code bug evidence): on a syntactically valid source whose single
field omits its type metadata, the semantic walk accumulates a
"missing type metadata" error, yet `Parse` returns the Specification with a
`nil` error: the accumulated error set is discarded instead of being returned
with the compiled model. -/
theorem parse_drops_accumulated_semantic_errors :
    (Parse [] { file := "\"config.toml\"", items := [SpecItem.node "f" {} [] [] []] }).2 = none
    ∧ (walkTree { file := "\"config.toml\"", items := [SpecItem.node "f" {} [] [] []] }).2
        = ["missing type metadata for field f"] :=
  ⟨rfl, rfl⟩

/-- Claim C2 (code bug evidence): a field declaring `notes` twice (values "a"
then "b", after quoting) accumulates no duplicate-metadata error and stores
the LAST declared value "b", because the source never sets `foundNotes`; the
claim requires one error per extra declaration and the first value "a". -/
theorem duplicate_notes_metadata_undetected :
    (walkItems [] [SpecItem.node "f" {}
        [MetadataItem.typeMeta "int" {}, MetadataItem.notesMeta "\"a\"" {},
         MetadataItem.notesMeta "\"b\"" {}] [] []]).2 = []
    ∧ (walkItems [] [SpecItem.node "f" {}
        [MetadataItem.typeMeta "int" {}, MetadataItem.notesMeta "\"a\"" {},
         MetadataItem.notesMeta "\"b\"" {}] [] []]).1.map (fun f => f.Notes) = ["b"] :=
  ⟨rfl, rfl⟩

/-- Claim C3 (counterexample to the claim as stated): under the
spec_parser.go revision, which pushes an empty root path before walking, the
top-level field named "a" is stored with path ".a", which carries a leading
separator and differs from its local name. -/
theorem old_variant_top_level_path_has_leading_separator :
    (walkItemsOld [""] [SpecItem.node "a" {} [MetadataItem.typeMeta "int" {}] [] []]).1.map
        (fun f => f.Field) = [".a"]
    ∧ (".a" : String) ≠ "a" :=
  ⟨rfl, by decide⟩

/-- Claim C3 (amended): in the part_000 revision the stored dotted paths are
exactly the spec-side ones — a nested field's path is its parent's path joined
with its local name by a single ".", and a top-level field's path is its local
name; in the spec_parser.go revision the stored paths are those obtained with
the empty string as the root parent, so every top-level path carries a leading
".". -/
theorem dotted_field_paths_of_both_variants (items : List SpecItem) :
    (walkItems [] items).1.map (fun f => f.Field) = specItemsPaths none items
    ∧ (walkItemsOld [""] items).1.map (fun f => f.Field)
        = specItemsPaths (some "") items :=
  ⟨walkItems_paths [] items, walkItemsOld_paths [""] items⟩

/-- Claim C4: the type-descriptor normalization maps list<list<int>> to
list:list:int, maps int to itself, and is idempotent on every string, so
re-normalizing any stored FieldType leaves it unchanged. -/
theorem condense_list_expressions_normalization (s : String) :
    condenseListExpressions "list<list<int>>" = "list:list:int"
    ∧ condenseListExpressions "int" = "int"
    ∧ condenseListExpressions (condenseListExpressions s) = condenseListExpressions s := by
  refine ⟨?_, ?_, ?_⟩
  · have h1 : condenseAux "list<list<int>>".data = "list:list:int".data := by
      rw [condenseAux, dif_pos (by decide)]
      rw [condenseAux, dif_pos (by decide)]
      rw [condenseAux, dif_neg (by decide)]
      decide
    exact congrArg String.mk h1
  · have h2 : condenseAux "int".data = "int".data := by
      rw [condenseAux, dif_neg (by decide)]
    exact congrArg String.mk h2
  · exact congrArg String.mk (condenseAux_idem s.data)

/-- Claim C9: the node produced for a TOML standard table and the node created
for an array-of-tables entry both have their value location equal to their
name location (the deliberate fallback for constructs without a distinct value
token). -/
theorem toml_table_value_location_falls_back_to_name_location
    (ctxLoc : TokenLocation) (fieldNode : Node) :
    (enterStandardTableUpdate ctxLoc fieldNode).valueLocation
        = (enterStandardTableUpdate ctxLoc fieldNode).nameLocation
    ∧ (newInArrayTableNode ctxLoc).valueLocation = (newInArrayTableNode ctxLoc).nameLocation := by
  constructor
  · cases fieldNode with
    | mk t v nl vl =>
      by_cases ht : t = FieldType.Null <;>
        simp [enterStandardTableUpdate, Node.withNameLocation, Node.withValueLocation,
          Node.nameLocation, Node.valueLocation, Node.type, Node.withTypeValue, ht]
  · rfl

/-- Metadata items other than a type declaration never change the duplicate
flag for type. -/
theorem foldl_foundType_of_no_type (fieldName : String) (items : List MetadataItem) :
    (∀ ty lo, MetadataItem.typeMeta ty lo ∉ items) →
    ∀ st : MetaState,
      ((items.foldl (processMetadataItem fieldName) st)).foundType = st.foundType := by
  induction items with
  | nil => intro _ st; rfl
  | cons i rest ih =>
    intro h st
    rw [List.foldl_cons, ih (fun ty lo hm => h ty lo (List.mem_cons_of_mem _ hm))]
    cases i with
    | typeMeta ty lo => exact absurd (List.mem_cons_self _ _) (h ty lo)
    | optionalMeta b lo => simp only [processMetadataItem]; split <;> rfl
    | defaultMeta p lo => simp only [processMetadataItem]; split <;> rfl
    | notesMeta n lo => simp only [processMetadataItem]; split <;> rfl

/-- Claim C5: a field item whose metadata contains no type declaration always
accumulates a missing-type error, while a field declaring only its type (so
optional, default and notes are all omitted) accumulates no error at all. -/
theorem missing_type_metadata_always_error (fieldName t : String) (l : TokenLocation)
    (fs0 : FieldSpec) (items : List MetadataItem)
    (hnoType : ∀ ty lo, MetadataItem.typeMeta ty lo ∉ items) :
    "missing type metadata for field " ++ fieldName ∈ (enterMetadata fieldName fs0 items).2
    ∧ (enterMetadata fieldName fs0 [MetadataItem.typeMeta t l]).2 = [] := by
  constructor
  · have hft : ((items.foldl (processMetadataItem fieldName)
        { fs := fs0 }).foundType) = false :=
      foldl_foundType_of_no_type fieldName items hnoType { fs := fs0 }
    simp [enterMetadata, processMetadata, hft, List.mem_append]
  · rfl

/-- Witness for the missing-type-error claim at a concrete field. -/
theorem missing_type_metadata_always_error_witness :
    "missing type metadata for field f" ∈ (enterMetadata "f" (initialFieldSpec "f" {}) []).2
    ∧ (enterMetadata "f" (initialFieldSpec "f" {}) [MetadataItem.typeMeta "int" {}]).2 = [] :=
  missing_type_metadata_always_error "f" "int" {} (initialFieldSpec "f" {}) []
    (fun ty lo hm => by simp at hm)

/-- The custom object type of the specification's construction example: one
required property name:string and one optional property age:int. -/
def personDef : ObjectDef :=
  { Name := "Person",
    Properties := [{ Name := "name", type := "string", Optional := false },
                   { Name := "age", type := "int", Optional := true }] }

/-- A string scalar configuration node. -/
def stringNode (s : String) : Node :=
  Node.mk FieldType.String (GoValue.strV s) {} {}

/-- Claim C6: constructing the example custom object from a map with only the
required name present succeeds with age absent from the result's fields;
constructing from the empty map fails with a missing-required-property error
naming "name"; constructing with a string under "age" fails with the type
mismatch arising from age's int descriptor. -/
theorem custom_object_construction_cases :
    customObjectFactory [("name", stringNode "a")] personDef
        = Except.ok (IType.tCustomObject "Person" [("name", IType.tString "a")])
    ∧ List.lookup "age" [("name", IType.tString "a")] = (none : Option IType)
    ∧ customObjectFactory [] personDef = Except.error "missing required property name"
    ∧ customObjectFactory [("name", stringNode "a"), ("age", stringNode "x")] personDef
        = Except.error "type mismatch: expected int" :=
  ⟨rfl, rfl, rfl, rfl⟩

/-- Claim C7: the get method of a custom object fails exactly when the
argument count is not one, or the single argument is not a string-typed value,
or the named field does not exist on the object; otherwise it returns the
typed value stored under that field name. -/
theorem custom_object_get_contract (objectName : String) (fields : List (String × IType))
    (args : List IType) :
    ((∃ e, GetMethod objectName fields "get" args = Except.error e) ↔
      (args.length ≠ 1 ∨ (∀ s, args ≠ [IType.tString s])
        ∨ ∃ s, args = [IType.tString s] ∧ fields.lookup s = none))
    ∧ ∀ s v, args = [IType.tString s] → fields.lookup s = some v →
        GetMethod objectName fields "get" args = Except.ok v := by
  have hg : GetMethod objectName fields "get" = tCustomObjectGet objectName fields := rfl
  rw [hg]
  match args with
  | [] =>
    refine ⟨⟨fun _ => Or.inl (by decide),
             fun _ => ⟨objectName ++ ".get expects 1 argument", rfl⟩⟩, ?_⟩
    intro s v hs
    simp at hs
  | a :: b :: rest =>
    refine ⟨⟨fun _ => Or.inl (by simp), fun _ => ⟨objectName ++ ".get expects 1 argument", rfl⟩⟩, ?_⟩
    intro s v hs
    simp at hs
  | [a] =>
    cases a with
    | tString s =>
      cases hl : fields.lookup s with
      | none =>
        refine ⟨⟨fun _ => Or.inr (Or.inr ⟨s, rfl, hl⟩),
                 fun _ => ⟨objectName ++ " does not have field " ++ s, ?_⟩⟩, ?_⟩
        · simp [tCustomObjectGet, hl]
        · intro s2 v hs hv
          obtain rfl : s = s2 := by simpa using hs
          rw [hl] at hv
          cases hv
      | some v =>
        refine ⟨⟨?_, ?_⟩, ?_⟩
        · rintro ⟨e, he⟩
          simp [tCustomObjectGet, hl] at he
        · rintro (h1 | h2 | ⟨s3, h3, h4⟩)
          · simp at h1
          · exact absurd rfl (h2 s)
          · obtain rfl : s = s3 := by simpa using h3
            rw [hl] at h4
            cases h4
        · intro s2 v2 hs hv
          obtain rfl : s = s2 := by simpa using hs
          rw [hl] at hv
          injection hv with hv2
          subst hv2
          simp [tCustomObjectGet, hl]
    | tBool b =>
      refine ⟨⟨fun _ => Or.inr (Or.inl fun s hs => by simp at hs),
               fun _ => ⟨"argument to " ++ objectName ++ ".get must be a string", rfl⟩⟩, ?_⟩
      intro s v hs
      simp at hs
    | tInt n =>
      refine ⟨⟨fun _ => Or.inr (Or.inl fun s hs => by simp at hs),
               fun _ => ⟨"argument to " ++ objectName ++ ".get must be a string", rfl⟩⟩, ?_⟩
      intro s v hs
      simp at hs
    | tFloat tf =>
      refine ⟨⟨fun _ => Or.inr (Or.inl fun s hs => by simp at hs),
               fun _ => ⟨"argument to " ++ objectName ++ ".get must be a string", rfl⟩⟩, ?_⟩
      intro s v hs
      simp at hs
    | tList es =>
      refine ⟨⟨fun _ => Or.inr (Or.inl fun s hs => by simp at hs),
               fun _ => ⟨"argument to " ++ objectName ++ ".get must be a string", rfl⟩⟩, ?_⟩
      intro s v hs
      simp at hs
    | tCustomObject n2 f2 =>
      refine ⟨⟨fun _ => Or.inr (Or.inl fun s hs => by simp at hs),
               fun _ => ⟨"argument to " ++ objectName ++ ".get must be a string", rfl⟩⟩, ?_⟩
      intro s v hs
      simp at hs

/-- Witness for the get-method contract: looking up an existing field. -/
theorem custom_object_get_contract_witness :
    GetMethod "Person" [("name", IType.tString "a")] "get" [IType.tString "name"]
      = Except.ok (IType.tString "a") :=
  (custom_object_get_contract "Person" [("name", IType.tString "a")] [IType.tString "name"]).2
    "name" (IType.tString "a") rfl rfl

/-- Claim C8: requesting a method outside the custom object's method table
never aborts: GetMethod returns a total callable that, for every argument
list, returns a value-level error naming the object's type name and the
requested method. -/
theorem unknown_method_yields_sentinel_error (objectName : String)
    (fields : List (String × IType)) (method : String) (args : List IType)
    (h : method ≠ "get") :
    GetMethod objectName fields method args
      = Except.error (objectName ++ " does not have method " ++ method) := by
  have hne : (method == "get") = false := beq_eq_false_iff_ne.mpr h
  simp [GetMethod, List.lookup, hne]

/-- Witness for the sentinel-error claim at a concrete unknown method. -/
theorem unknown_method_yields_sentinel_error_witness :
    GetMethod "Person" [] "foo" []
      = Except.error ("Person" ++ " does not have method " ++ "foo") :=
  unknown_method_yields_sentinel_error "Person" [] "foo" [] (by decide)

/-- The factory's field loop reads the source map only at declared property
names. -/
theorem customObjectFields_respects_declared_lookups
    (objValue objValue2 : List (String × Node)) :
    ∀ props : List ObjectProperty,
      (∀ p ∈ props, objValue.lookup p.Name = objValue2.lookup p.Name) →
      customObjectFields objValue props = customObjectFields objValue2 props := by
  intro props
  induction props with
  | nil => intro _; rfl
  | cons p rest ih =>
    intro h
    have hp := h p (List.mem_cons_self _ _)
    have hrest := ih (fun q hq => h q (List.mem_cons_of_mem _ hq))
    simp only [customObjectFields, hp, hrest]

/-- Every key of a successfully built field list is a declared property name. -/
theorem customObjectFields_keys_declared (objValue : List (String × Node)) :
    ∀ (props : List ObjectProperty) (fs : List (String × IType)),
      customObjectFields objValue props = Except.ok fs →
      ∀ k t, (k, t) ∈ fs → ∃ p, p ∈ props ∧ p.Name = k := by
  intro props
  induction props with
  | nil =>
    intro fs hok k t hmem
    simp only [customObjectFields] at hok
    cases hok
    simp at hmem
  | cons p rest ih =>
    intro fs hok k t hmem
    simp only [customObjectFields] at hok
    cases hl : objValue.lookup p.Name with
    | some n =>
      rw [hl] at hok
      dsimp only at hok
      cases hm : MakeType p.type n.value with
      | error e => rw [hm] at hok; simp at hok
      | ok ty =>
        rw [hm] at hok
        dsimp only at hok
        cases hrec : customObjectFields objValue rest with
        | error e => rw [hrec] at hok; simp [Except.map] at hok
        | ok fs2 =>
          rw [hrec] at hok
          simp only [Except.map, Except.ok.injEq] at hok
          subst hok
          rcases List.mem_cons.mp hmem with hhead | htail
          · exact ⟨p, List.mem_cons_self _ _, by cases hhead; rfl⟩
          · obtain ⟨q, hq, hqn⟩ := ih fs2 hrec k t htail
            exact ⟨q, List.mem_cons_of_mem _ hq, hqn⟩
    | none =>
      rw [hl] at hok
      dsimp only at hok
      cases ho : p.Optional with
      | false =>
        rw [ho] at hok
        simp at hok
      | true =>
        rw [ho] at hok
        simp only [Bool.not_true] at hok
        obtain ⟨q, hq, hqn⟩ := ih fs (by simpa using hok) k t hmem
        exact ⟨q, List.mem_cons_of_mem _ hq, hqn⟩

/-- Claim C10: the factory's result depends only on the source map's entries
at declared property names (so undeclared keys are silently ignored and can
never cause an error), and a successfully constructed custom object's field
mapping contains only declared property names. -/
theorem custom_object_ignores_undeclared_keys (objValue objValue2 : List (String × Node))
    (d : ObjectDef)
    (hagree : ∀ p ∈ d.Properties, objValue.lookup p.Name = objValue2.lookup p.Name) :
    customObjectFactory objValue d = customObjectFactory objValue2 d
    ∧ ∀ name flds,
        customObjectFactory objValue d = Except.ok (IType.tCustomObject name flds) →
        ∀ k t, (k, t) ∈ flds → ∃ p, p ∈ d.Properties ∧ p.Name = k := by
  constructor
  · unfold customObjectFactory
    rw [customObjectFields_respects_declared_lookups objValue objValue2 d.Properties hagree]
  · intro name flds hok k t hmem
    unfold customObjectFactory at hok
    cases hrec : customObjectFields objValue d.Properties with
    | error e => rw [hrec] at hok; simp [Except.map] at hok
    | ok fs =>
      rw [hrec] at hok
      simp only [Except.map, Except.ok.injEq, IType.tCustomObject.injEq] at hok
      obtain ⟨-, rfl⟩ := hok
      exact customObjectFields_keys_declared objValue d.Properties fs hrec k t hmem

/-- Witness for the undeclared-keys claim: adding an undeclared "extra" key to
the source map leaves the construction result unchanged. -/
theorem custom_object_ignores_undeclared_keys_witness :
    customObjectFactory [("name", stringNode "a"), ("extra", stringNode "z")] personDef
      = customObjectFactory [("name", stringNode "a")] personDef :=
  (custom_object_ignores_undeclared_keys
      [("name", stringNode "a"), ("extra", stringNode "z")] [("name", stringNode "a")] personDef
      (by
        intro p hp
        simp only [personDef, List.mem_cons, List.not_mem_nil, or_false] at hp
        rcases hp with rfl | rfl <;> rfl)).1

end ConfigMate
